import Mathlib

/-!
Verification of the exponential-backoff counter implemented in `backoff.go`
(package `backoff`).  The Go code is embedded shallowly:

* `time.Duration` is int64; its wrapping arithmetic is made explicit through
  `wrap64` (two's-complement reduction into `[-2^63, 2^63)`).
* `uint64` fields (`tries`, `n`) are `Nat` values taken modulo `2^64` at each
  update, mirroring Go's wrap-around.
* Go's `x << k` on `uint64` is `shl64` (result `0` once the shift reaches the
  width, exactly as in Go).
* `math/rand.Int63n` panics on a non-positive bound; the draw from the shared
  source is an oracle integer `r` and the panic is an `Option.none` result.
* The mutable package globals `DefaultInterval` / `DefaultMaxDuration` are a
  `Globals` record threaded through every operation that reads them.
-/

/-- Two's-complement wrap of an integer into the int64 range `[-2^63, 2^63)`.
This is the effect of Go's wrapping `int64` arithmetic on a mathematical
intermediate value. -/
def wrap64 (x : Int) : Int := (x + 2 ^ 63) % 2 ^ 64 - 2 ^ 63

/-- Go conversion `uint64 -> int64` (used by `time.Duration(pow)`). -/
def u64ToI64 (u : Nat) : Int := wrap64 u

/-- Go `<<` on `uint64`: multiply and reduce modulo `2^64`.  For a shift count
reaching the width the result is `0`, as in Go, since `2^k % 2^64 = 0` there. -/
def shl64 (x k : Nat) : Nat := (x * 2 ^ k) % 2 ^ 64

/-- The mutable package-level defaults (`DefaultInterval`,
`DefaultMaxDuration` in `backoff.go`), in nanoseconds. -/
structure Globals where
  DefaultInterval : Int
  DefaultMaxDuration : Int
deriving DecidableEq, Repr

/-- `time.Minute` in nanoseconds. -/
def Minute : Int := 60000000000

/-- `time.Hour` in nanoseconds. -/
def Hour : Int := 3600000000000

/-- The initial values of the package globals:
`DefaultInterval = 5 * time.Minute`, `DefaultMaxDuration = 6 * time.Hour`. -/
def initGlobals : Globals := ⟨5 * Minute, 6 * Hour⟩

/-- The `Backoff` struct of `backoff.go`.  `maxDuration` and `interval` are
`time.Duration` (int64) values; `tries` and `n` are `uint64` counters.  The
mutex and the unused `rng` pointer carry no observable state and are omitted. -/
structure Backoff where
  maxDuration : Int
  interval : Int
  noJitter : Bool
  tries : Nat
  n : Nat
deriving DecidableEq, Repr

/-- `(*Backoff).setup`: fill a zero `interval` with `DefaultInterval` and a
zero `maxDuration` with `DefaultMaxDuration`. -/
def setup (g : Globals) (b : Backoff) : Backoff :=
  let b1 := if b.interval = 0 then { b with interval := g.DefaultInterval } else b
  if b1.maxDuration = 0 then { b1 with maxDuration := g.DefaultMaxDuration } else b1

/-- `New(max, interval)`: build the struct and run `setup` eagerly. -/
def New (g : Globals) (maxd interval : Int) : Backoff :=
  setup g { maxDuration := maxd, interval := interval, noJitter := false, tries := 0, n := 0 }

/-- `NewWithoutJitter(max, interval)`: `New` and then set `noJitter`. -/
def NewWithoutJitter (g : Globals) (maxd interval : Int) : Backoff :=
  { New g maxd interval with noJitter := true }

/-- `math/rand.(*Rand).Int63n bound`, with the randomness supplied by the
oracle `r`: panics (`none`) when `bound <= 0`, otherwise returns a value in
`[0, bound)`; as `r` ranges over the integers, `r % bound` ranges over the
whole interval. -/
def int63n (r bound : Int) : Option Int :=
  if bound ≤ 0 then none else some (r % bound)

/-- `(*Backoff).Duration()`.  Returns the produced duration (`none` when the
jitter draw panics) together with the post-state; in Go the state mutation
happens before the draw, so the post-state is meaningful even on panic. -/
def Duration (g : Globals) (b0 : Backoff) (r : Int) : Option Int × Backoff :=
  let b := setup g b0
  let pow : Nat := shl64 1 b.n
  let t0 : Int := wrap64 (b.interval * u64ToI64 pow)
  let b' : Backoff :=
    { b with
      tries := (b.tries + 1) % 2 ^ 64,
      n := if pow < shl64 pow 1 ∧
              t0 < wrap64 (b.interval * u64ToI64 (shl64 pow 1)) then
             (b.n + 1) % 2 ^ 64
           else b.n }
  let t1 : Int := if t0 > b.maxDuration then b.maxDuration else t0
  (if b.noJitter then some t1 else int63n r t1, b')

/-- `(*Backoff).Reset()`: zero both counters. -/
def Reset (b : Backoff) : Backoff := { b with tries := 0, n := 0 }

/-- `(*Backoff).Tries()`: read the attempt counter. -/
def Tries (b : Backoff) : Nat := b.tries

/-- An observable operation on a `Backoff`; the oracle integer of `dur` is the
random draw consumed by that call when jitter is enabled. -/
inductive Op where
  | dur (r : Int)
  | reset
  | tries
deriving DecidableEq, Repr

/-- One operation: its integer output and the post-state, `none` when a
jittered `Duration` call panics. -/
def step (g : Globals) (b : Backoff) : Op → Option (Int × Backoff)
  | .dur r =>
    match Duration g b r with
    | (some d, b') => some (d, b')
    | (none, _) => none
  | .reset => some (0, Reset b)
  | .tries => some ((Tries b : Int), b)

/-- Run a sequence of operations, collecting the outputs. -/
def runOps (g : Globals) (b : Backoff) : List Op → Option (List Int × Backoff)
  | [] => some ([], b)
  | op :: ops =>
    match step g b op with
    | none => none
    | some (d, b') =>
      match runOps g b' ops with
      | none => none
      | some (ds, b'') => some (d :: ds, b'')

/-- Final state of a run. -/
def runSt (g : Globals) (b : Backoff) (ops : List Op) : Option Backoff :=
  (runOps g b ops).map Prod.snd

/-- The state reached by a `Duration` call, independent of the draw. -/
def durState (g : Globals) (b : Backoff) : Backoff := (Duration g b 0).2

/-- The state after `k` consecutive `Duration` calls. -/
def durStates (g : Globals) (b : Backoff) : Nat → Backoff
  | 0 => b
  | k + 1 => durState g (durStates g b k)

/-- The raw (pre-clamp) duration `t` computed by lines 113–115 of
`backoff.go` at a given state: `interval * time.Duration(1 << n)` in wrapping
int64 arithmetic. -/
def rawDur (b : Backoff) : Int := wrap64 (b.interval * u64ToI64 (shl64 1 b.n))

/-- Accumulator for counting `Duration` calls since the last `Reset`. -/
def dursAcc (c : Nat) (op : Op) : Nat :=
  match op with
  | .dur _ => c + 1
  | .reset => 0
  | .tries => c

/-- Number of `Duration` calls in an operation sequence after the last
`Reset`. -/
def dursSinceReset (ops : List Op) : Nat := ops.foldl dursAcc 0

/-- `binary.LittleEndian.Uint64` on a byte buffer. -/
def leUint64 (bs : List Nat) : Nat := bs.foldr (fun byte acc => byte + 256 * acc) 0

/-- The package `init` function seeding the shared source `prng`: the
argument is the outcome of `io.ReadFull(rand.Reader, buf[:])` (`none` on
error, otherwise the 8 bytes read); the result is the int64 seed handed to
`mrand.NewSource`, or `none` when `init` panics. -/
def initSharedRng (readResult : Option (List Nat)) : Option Int :=
  match readResult with
  | none => none
  | some buf => some (u64ToI64 (leUint64 buf))

/-- The zero value of the `Backoff` struct (usable without construction). -/
def zeroBackoff : Backoff :=
  { maxDuration := 0, interval := 0, noJitter := false, tries := 0, n := 0 }

/-! ### Basic arithmetic facts about the wrapping operations -/

theorem wrap64_of (x : Int) (h1 : -(2 ^ 63) ≤ x) (h2 : x < 2 ^ 63) : wrap64 x = x := by
  unfold wrap64
  have hlo : (0 : Int) ≤ x + 2 ^ 63 := by linarith
  have hhi : x + 2 ^ 63 < 2 ^ 64 := by norm_num; linarith
  rw [Int.emod_eq_of_lt hlo hhi]
  ring

theorem wrap64_sub (x : Int) (h1 : 2 ^ 63 ≤ x) (h2 : x < 2 ^ 64) : wrap64 x = x - 2 ^ 64 := by
  unfold wrap64
  have hrw : x + 2 ^ 63 = (x - 2 ^ 63) + 1 * 2 ^ 64 := by ring
  rw [hrw, Int.add_mul_emod_self]
  have hlo : (0 : Int) ≤ x - 2 ^ 63 := by linarith
  have hhi : x - 2 ^ 63 < 2 ^ 64 := by norm_num; linarith
  rw [Int.emod_eq_of_lt hlo hhi]
  ring

theorem u64ToI64_of (u : Nat) (h : (u : Int) < 2 ^ 63) : u64ToI64 u = u :=
  wrap64_of _ (by omega) h

theorem shl64_one (k : Nat) (h : k ≤ 63) : shl64 1 k = 2 ^ k := by
  unfold shl64
  rw [one_mul]
  exact Nat.mod_eq_of_lt (Nat.pow_lt_pow_right (by norm_num) (by omega))

theorem shl64_double (k : Nat) (h : k + 1 ≤ 63) : shl64 (2 ^ k) 1 = 2 ^ (k + 1) := by
  unfold shl64
  rw [pow_one, ← pow_succ]
  exact Nat.mod_eq_of_lt (Nat.pow_lt_pow_right (by norm_num) (by omega))

theorem shl64_double_63 : shl64 (2 ^ 63) 1 = 0 := by decide

theorem int63n_pos (r bound : Int) (h : 0 < bound) :
    int63n r bound = some (r % bound) := by
  unfold int63n
  rw [if_neg (by omega)]

/-! ### Facts about `setup` -/

theorem setup_interval (g : Globals) (b : Backoff) :
    (setup g b).interval = if b.interval = 0 then g.DefaultInterval else b.interval := by
  obtain ⟨m, i, nj, tr, n⟩ := b
  simp only [setup]
  split_ifs <;> rfl

theorem setup_maxDuration (g : Globals) (b : Backoff) :
    (setup g b).maxDuration =
      if b.maxDuration = 0 then g.DefaultMaxDuration else b.maxDuration := by
  obtain ⟨m, i, nj, tr, n⟩ := b
  simp only [setup]
  split_ifs <;> rfl

theorem setup_noJitter (g : Globals) (b : Backoff) : (setup g b).noJitter = b.noJitter := by
  obtain ⟨m, i, nj, tr, n⟩ := b
  simp only [setup]
  split_ifs <;> rfl

theorem setup_tries (g : Globals) (b : Backoff) : (setup g b).tries = b.tries := by
  obtain ⟨m, i, nj, tr, n⟩ := b
  simp only [setup]
  split_ifs <;> rfl

theorem setup_n (g : Globals) (b : Backoff) : (setup g b).n = b.n := by
  obtain ⟨m, i, nj, tr, n⟩ := b
  simp only [setup]
  split_ifs <;> rfl

theorem setup_of_ne (g : Globals) (b : Backoff)
    (hi : b.interval ≠ 0) (hm : b.maxDuration ≠ 0) : setup g b = b := by
  obtain ⟨m, i, nj, tr, n⟩ := b
  simp only [setup] at *
  simp_all

theorem setup_idem (g : Globals) (b : Backoff) : setup g (setup g b) = setup g b := by
  obtain ⟨m, i, nj, tr, n⟩ := b
  simp only [setup]
  split_ifs <;> simp_all

/-! ### The overflow guard in true arithmetic -/

theorem exp_bound (i : Int) (k : Nat) (hi : 0 < i) (h : i * 2 ^ k < 2 ^ 63) : k ≤ 62 := by
  by_contra hk
  push_neg at hk
  have h1 : (2 : Int) ^ 63 ≤ 2 ^ k := pow_le_pow_right₀ (by norm_num) (by omega)
  have h2 : (2 : Int) ^ k ≤ i * 2 ^ k := le_mul_of_one_le_left (by positivity) hi
  linarith

/-- The raw duration `t` of lines 113–115 equals `interval * 2^n` exactly while
that value fits in int64. -/
theorem raw_eq (i : Int) (k : Nat) (hi : 0 < i) (hraw : i * 2 ^ k < 2 ^ 63) :
    wrap64 (i * u64ToI64 (shl64 1 k)) = i * 2 ^ k := by
  have hk62 : k ≤ 62 := exp_bound i k hi hraw
  have hcast : ((2 ^ k : Nat) : Int) = 2 ^ k := by push_cast; ring
  have hpk : (2 : Int) ^ k < 2 ^ 63 :=
    lt_of_le_of_lt (le_mul_of_one_le_left (by positivity) hi) hraw
  rw [shl64_one k (by omega), u64ToI64_of _ (by rw [hcast]; exact hpk), hcast]
  exact wrap64_of _ (le_trans (by norm_num) (mul_pos hi (by positivity)).le) hraw

/-- The overflow guard of line 117 holds exactly when the doubled duration
still fits in int64. -/
theorem guard_iff (i : Int) (k : Nat) (hi : 0 < i) (hraw : i * 2 ^ k < 2 ^ 63) :
    (shl64 1 k < shl64 (shl64 1 k) 1 ∧
       wrap64 (i * u64ToI64 (shl64 1 k)) <
         wrap64 (i * u64ToI64 (shl64 (shl64 1 k) 1)))
      ↔ i * 2 ^ (k + 1) < 2 ^ 63 := by
  have hk62 : k ≤ 62 := exp_bound i k hi hraw
  rw [raw_eq i k hi hraw, shl64_one k (by omega), shl64_double k (by omega)]
  have hcast : ((2 ^ (k + 1) : Nat) : Int) = 2 ^ (k + 1) := by push_cast; ring
  have hposik : 0 < i * 2 ^ k := mul_pos hi (by positivity)
  by_cases hc : i * 2 ^ (k + 1) < 2 ^ 63
  · have hk161 : k + 1 ≤ 62 := exp_bound i (k + 1) hi hc
    have hpk1 : (2 : Int) ^ (k + 1) < 2 ^ 63 :=
      lt_of_le_of_lt (le_mul_of_one_le_left (by positivity) hi) hc
    rw [u64ToI64_of _ (by rw [hcast]; exact hpk1), hcast,
      wrap64_of _ (le_trans (by norm_num) (mul_pos hi (by positivity)).le) hc]
    simp only [hc, iff_true]
    constructor
    · exact Nat.pow_lt_pow_right (by norm_num) (by omega)
    · have : (2 : Int) ^ k < 2 ^ (k + 1) := by
        rw [pow_lt_pow_iff_right₀ (by norm_num)]
        omega
      exact mul_lt_mul_of_pos_left this hi
  · push_neg at hc
    simp only [iff_false, not_lt.mpr hc, not_and]
    intro h1
    rcases Nat.lt_or_ge k 62 with hklt | hkeq
    · -- k + 1 ≤ 62: the doubled value lands in [2^63, 2^64) and wraps negative
      have hpk1 : (2 : Int) ^ (k + 1) < 2 ^ 63 := by
        have : (2 : Int) ^ (k + 1) ≤ 2 ^ 62 := pow_le_pow_right₀ (by norm_num) (by omega)
        linarith
      rw [u64ToI64_of _ (by rw [hcast]; exact hpk1), hcast]
      have hx : i * 2 ^ (k + 1) < 2 ^ 64 := by
        have : i * 2 ^ (k + 1) = 2 * (i * 2 ^ k) := by ring
        rw [this]
        norm_num
        linarith
      rw [wrap64_sub _ hc hx]
      intro habs
      have : i * 2 ^ (k + 1) - 2 ^ 64 < 0 := by norm_num at hx ⊢; linarith
      linarith
    · -- k = 62: pow<<1 is 2^63, which converts to -2^63, and i must be 1
      have hk : k = 62 := by omega
      subst hk
      have hi1 : i = 1 := by
        have h262 : (2 : Int) ^ 62 = 4611686018427387904 := by norm_num
        have h263 : (2 : Int) ^ 63 = 9223372036854775808 := by norm_num
        rw [h262] at hraw
        rw [h263] at hraw
        omega
      subst hi1
      have h63cast : ((2 ^ 63 : Nat) : Int) = 2 ^ 63 := by norm_num
      have hu : u64ToI64 (2 ^ 63) = -(2 ^ 63) := by
        unfold u64ToI64
        rw [h63cast, wrap64_sub _ (by norm_num) (by norm_num)]
        norm_num
      rw [hu, one_mul, wrap64_of _ (by norm_num) (by norm_num), one_mul]
      intro habs
      have : (0 : Int) < 2 ^ 62 := by positivity
      linarith

/-! ### One `Duration` step -/

theorem clamp_eq_min (a m : Int) : (if a > m then m else a) = min a m := by
  rw [min_def]
  split_ifs <;> omega

theorem guard1_bound (k : Nat) (h : shl64 1 k < shl64 (shl64 1 k) 1) : k ≤ 62 := by
  by_contra hk
  push_neg at hk
  rcases Nat.lt_or_ge k 64 with h64 | h64
  · have hk63 : k = 63 := by omega
    subst hk63
    revert h
    decide
  · obtain ⟨c, hc⟩ := pow_dvd_pow 2 h64
    have h0 : shl64 1 k = 0 := by
      unfold shl64
      rw [one_mul, hc, Nat.mul_mod_right]
    rw [h0] at h
    revert h
    decide

theorem Duration_tries (g : Globals) (b : Backoff) (r : Int) :
    ((Duration g b r).2).tries = (b.tries + 1) % 2 ^ 64 := by
  simp only [Duration]
  rw [setup_tries]

theorem Duration_noJitter_eq (g : Globals) (b : Backoff) (r : Int) :
    ((Duration g b r).2).noJitter = b.noJitter := by
  simp only [Duration]
  rw [setup_noJitter]

theorem Duration_interval_eq (g : Globals) (b : Backoff) (r : Int) :
    ((Duration g b r).2).interval = (setup g b).interval := by
  simp only [Duration]

theorem Duration_maxDuration_eq (g : Globals) (b : Backoff) (r : Int) :
    ((Duration g b r).2).maxDuration = (setup g b).maxDuration := by
  simp only [Duration]

theorem Duration_n_cases (g : Globals) (b : Backoff) (r : Int) :
    ((Duration g b r).2).n = b.n ∨ (((Duration g b r).2).n = b.n + 1 ∧ b.n ≤ 62) := by
  simp only [Duration]
  rw [setup_n]
  split_ifs with hcond
  · right
    have hb : b.n ≤ 62 := guard1_bound b.n hcond.1
    exact ⟨Nat.mod_eq_of_lt (by omega), hb⟩
  · left
    rfl

theorem Duration_n_ge (g : Globals) (b : Backoff) (r : Int) :
    b.n ≤ ((Duration g b r).2).n := by
  rcases Duration_n_cases g b r with h | ⟨h, _⟩ <;> omega

theorem Duration_snd_indep (g : Globals) (b : Backoff) (r r' : Int) :
    (Duration g b r).2 = (Duration g b r').2 := rfl

/-- One `Duration` call, in true arithmetic, at a state whose configuration is
already set up and whose raw duration fits in int64: the result is
`min (interval * 2^n) maxDuration` (jittered through the draw when enabled),
`tries` advances, and `n` advances exactly when the doubled duration still
fits. -/
theorem Duration_run (g : Globals) (b : Backoff) (r : Int)
    (hi : 0 < b.interval) (hm : b.maxDuration ≠ 0)
    (hraw : b.interval * 2 ^ b.n < 2 ^ 63) :
    Duration g b r =
      (if b.noJitter then some (min (b.interval * 2 ^ b.n) b.maxDuration)
       else int63n r (min (b.interval * 2 ^ b.n) b.maxDuration),
       { maxDuration := b.maxDuration, interval := b.interval, noJitter := b.noJitter,
         tries := (b.tries + 1) % 2 ^ 64,
         n := if b.interval * 2 ^ (b.n + 1) < 2 ^ 63 then b.n + 1 else b.n }) := by
  have hsetup : setup g b = b := setup_of_ne g b (ne_of_gt hi) hm
  have hguard := guard_iff b.interval b.n hi hraw
  have hraweq := raw_eq b.interval b.n hi hraw
  simp only [Duration, hsetup]
  simp only [hguard]
  simp only [hraweq]
  simp only [clamp_eq_min]
  by_cases hc : b.interval * 2 ^ (b.n + 1) < 2 ^ 63
  · have hn1 : b.n + 1 ≤ 62 := exp_bound _ _ hi hc
    have hc' := hc
    norm_num at hc'
    have hlt : b.n + 1 < 18446744073709551616 := by omega
    simp [hc, hc', Nat.mod_eq_of_lt hlt]
  · have hc' := hc
    norm_num at hc'
    simp [not_lt.mpr hc']

/-! ### Iterated `Duration` calls -/

theorem pow_succ_fit (i : Int) (k : Nat) (hi : 0 < i)
    (hfit : i * 2 ^ (k + 1) < 2 ^ 63) : i * 2 ^ k < 2 ^ 63 := by
  have h2 : (2 : Int) ^ k < 2 ^ (k + 1) := by
    rw [pow_lt_pow_iff_right₀ (by norm_num : (1 : Int) < 2)]
    omega
  exact lt_trans (mul_lt_mul_of_pos_left h2 hi) hfit

/-- While `interval * 2^k` still fits in int64, `k` jitterless-state steps
from a freshly set-up counter leave the configuration alone and advance both
counters in lockstep: `tries = k`, `n = k`. -/
theorem durStates_eq (g : Globals) (i m : Int) (nj : Bool) (tr : Nat)
    (hi : 0 < i) (hm : m ≠ 0) (htr : tr < 2 ^ 64) (k : Nat)
    (hfit : i * 2 ^ k < 2 ^ 63) :
    durStates g ⟨m, i, nj, tr, 0⟩ k = ⟨m, i, nj, (tr + k) % 2 ^ 64, k⟩ := by
  induction k with
  | zero =>
    simp only [durStates]
    simp
    omega
  | succ k ih =>
    have hk : i * 2 ^ k < 2 ^ 63 := pow_succ_fit i k hi hfit
    rw [show durStates g ⟨m, i, nj, tr, 0⟩ (k + 1)
          = durState g (durStates g ⟨m, i, nj, tr, 0⟩ k) from rfl,
        ih hk]
    unfold durState
    rw [Duration_run g ⟨m, i, nj, (tr + k) % 2 ^ 64, k⟩ 0 hi hm hk]
    rw [if_pos hfit]
    rw [Nat.mod_add_mod, Nat.add_assoc]

/-- C1: with jitter disabled, positive `interval` and `maxDuration`, while no
overflow stall has been reached (`interval * 2^n` still fits in int64), the
nth `Duration` call (zero-based) returns exactly `min (interval * 2^n)
maxDuration`. -/
theorem C1_nth_duration_exact (g : Globals) (i m : Int) (n : Nat) (r : Int)
    (hi : 0 < i) (hm : 0 < m) (hfit : i * 2 ^ n < 2 ^ 63) :
    (Duration g (durStates g (NewWithoutJitter g m i) n) r).1 =
      some (min (i * 2 ^ n) m) := by
  have hNWJ : NewWithoutJitter g m i = ⟨m, i, true, 0, 0⟩ := by
    unfold NewWithoutJitter New
    rw [setup_of_ne g _ (ne_of_gt hi) (ne_of_gt hm)]
  rw [hNWJ, durStates_eq g i m true 0 hi (ne_of_gt hm) (by norm_num) n hfit]
  rw [Duration_run g ⟨m, i, true, (0 + n) % 2 ^ 64, n⟩ r hi (ne_of_gt hm) hfit]
  rfl

/-- Witness for C1 at `interval = 1`, `maxDuration = 5`, third call (n = 2):
the call returns exactly 4. -/
theorem C1_nth_duration_exact_witness :
    (Duration initGlobals (durStates initGlobals (NewWithoutJitter initGlobals 5 1) 2) 0).1 =
      some 4 := by
  have h := C1_nth_duration_exact initGlobals 1 5 2 0 (by norm_num) (by norm_num) (by norm_num)
  simpa using h

/-- The exponent update of a `Duration` call in true arithmetic; no assumption
on `maxDuration` is needed since the guard never reads it. -/
theorem Duration_n_eq (g : Globals) (b : Backoff) (r : Int)
    (hi : 0 < b.interval) (hraw : b.interval * 2 ^ b.n < 2 ^ 63) :
    ((Duration g b r).2).n =
      if b.interval * 2 ^ (b.n + 1) < 2 ^ 63 then b.n + 1 else b.n := by
  simp only [Duration]
  rw [setup_n, setup_interval, if_neg (ne_of_gt hi)]
  simp only [guard_iff b.interval b.n hi hraw]
  split_ifs with h
  · exact Nat.mod_eq_of_lt (by have := exp_bound _ _ hi h; omega)
  · rfl

/-! ### C2: the attempt counter -/

/-- C2 (amended): a `Duration` call advances the value observed by `Tries` by
exactly 1 modulo `2^64` — exactly 1 whenever the previous value is below
`2^64 - 1` — regardless of jitter or overflow stall; `Reset` makes `Tries`
return 0; `Tries` itself changes no field. -/
theorem C2_tries_increment (g : Globals) (b : Backoff) (r : Int) :
    Tries ((Duration g b r).2) = (Tries b + 1) % 2 ^ 64 ∧
    (Tries b + 1 < 2 ^ 64 → Tries ((Duration g b r).2) = Tries b + 1) ∧
    Tries (Reset b) = 0 ∧
    step g b Op.tries = some ((Tries b : Int), b) := by
  refine ⟨Duration_tries g b r, ?_, rfl, rfl⟩
  intro h
  have := Duration_tries g b r
  rw [Tries, Tries] at *
  omega

/-- Witness for C2 at a concrete state: `Tries` goes from 3 to 4. -/
theorem C2_tries_increment_witness :
    Tries ((Duration initGlobals ⟨5, 1, true, 3, 0⟩ 0).2) = Tries (⟨5, 1, true, 3, 0⟩ : Backoff) + 1 :=
  (C2_tries_increment initGlobals ⟨5, 1, true, 3, 0⟩ 0).2.1 (by decide)

/-- C2 counterexample: at a `Backoff` whose uint64 `tries` field holds
`2^64 - 1`, a `Duration` call wraps the value observed by `Tries` to 0, which
is not an increase by exactly 1. -/
theorem C2_tries_increment_counterexample :
    Tries ((Duration initGlobals ⟨5, 1, true, 2 ^ 64 - 1, 0⟩ 0).2) ≠
      Tries (⟨5, 1, true, 2 ^ 64 - 1, 0⟩ : Backoff) + 1 ∧
    Tries ((Duration initGlobals ⟨5, 1, true, 2 ^ 64 - 1, 0⟩ 0).2) = 0 := by
  decide

/-! ### C4: zero clamped duration under jitter -/

/-- C4: at a jitter-enabled state whose clamped duration is zero — interval
`2^62` with exponent 2 makes the wrapped raw duration exactly 0 — the code
hands the zero bound to the shared source's `Int63n`, which panics, instead
of returning zero. -/
theorem C4_zero_clamped_duration_panics (r : Int) :
    (Duration initGlobals ⟨5, 2 ^ 62, false, 0, 2⟩ r).1 = none := rfl

/-! ### C6: the defaulting step -/

/-- C6: `setup` is idempotent and only fills zero-valued fields: non-zero
`interval`/`maxDuration` are kept, zero ones become the current defaults. -/
theorem C6_setup_idempotent_defaulting (g : Globals) (b : Backoff) :
    setup g (setup g b) = setup g b ∧
    (b.interval ≠ 0 → (setup g b).interval = b.interval) ∧
    (b.maxDuration ≠ 0 → (setup g b).maxDuration = b.maxDuration) ∧
    (b.interval = 0 → (setup g b).interval = g.DefaultInterval) ∧
    (b.maxDuration = 0 → (setup g b).maxDuration = g.DefaultMaxDuration) := by
  refine ⟨setup_idem g b, ?_, ?_, ?_, ?_⟩ <;> intro h <;>
    simp [setup_interval, setup_maxDuration, h]

/-- Witness for C6: defaults fill the zero-value struct, a non-zero interval
survives. -/
theorem C6_setup_idempotent_defaulting_witness :
    (setup initGlobals zeroBackoff).interval = initGlobals.DefaultInterval ∧
    (setup initGlobals ⟨7, 3, false, 0, 0⟩).interval = 3 :=
  ⟨(C6_setup_idempotent_defaulting initGlobals zeroBackoff).2.2.2.1 rfl,
   (C6_setup_idempotent_defaulting initGlobals ⟨7, 3, false, 0, 0⟩).2.1 (by decide)⟩

/-! ### C8: seeding the shared random source -/

/-- C8: the package initialization of the shared source aborts (panics)
exactly when the entropy read fails, and on success the seed is the
little-endian int64 of the bytes read from the secure source — there is no
degraded (e.g. time-based) fallback path. -/
theorem C8_init_fatal_iff_entropy_failure (res : Option (List Nat)) :
    (initSharedRng res = none ↔ res = none) ∧
    (∀ buf, res = some buf → initSharedRng res = some (u64ToI64 (leUint64 buf))) := by
  constructor
  · cases res <;> simp [initSharedRng]
  · intro buf h
    subst h
    rfl

/-- Witness for C8: a successful 8-byte read yields the corresponding seed. -/
theorem C8_init_fatal_iff_entropy_failure_witness :
    initSharedRng (some [1, 0, 0, 0, 0, 0, 0, 0]) = some 1 := by
  have h := (C8_init_fatal_iff_entropy_failure (some [1, 0, 0, 0, 0, 0, 0, 0])).2
    [1, 0, 0, 0, 0, 0, 0, 0] rfl
  rw [h]
  decide

/-! ### C10: eager defaults at construction -/

/-- C10: `New(0, 0)` applies the current defaults eagerly at construction, so
a later change of the process-wide defaults (a different `Globals` value
`g'`) has no effect on that counter, while a zero-value `Backoff` picks up
whatever the defaults are when its first `Duration` call runs `setup`. -/
theorem C10_new_captures_defaults (g g' : Globals) (r : Int)
    (hdi : g.DefaultInterval ≠ 0) (hdm : g.DefaultMaxDuration ≠ 0) :
    (New g 0 0).interval = g.DefaultInterval ∧
    (New g 0 0).maxDuration = g.DefaultMaxDuration ∧
    Duration g' (New g 0 0) r = Duration g (New g 0 0) r ∧
    (setup g' zeroBackoff).interval = g'.DefaultInterval ∧
    (setup g' zeroBackoff).maxDuration = g'.DefaultMaxDuration := by
  have h1 : (New g 0 0).interval = g.DefaultInterval := by
    unfold New
    rw [setup_interval]
    simp
  have h2 : (New g 0 0).maxDuration = g.DefaultMaxDuration := by
    unfold New
    rw [setup_maxDuration]
    simp
  refine ⟨h1, h2, ?_, ?_, ?_⟩
  · have hne : setup g' (New g 0 0) = New g 0 0 :=
      setup_of_ne g' _ (by rw [h1]; exact hdi) (by rw [h2]; exact hdm)
    have hne2 : setup g (New g 0 0) = New g 0 0 :=
      setup_of_ne g _ (by rw [h1]; exact hdi) (by rw [h2]; exact hdm)
    unfold Duration
    rw [hne, hne2]
  · rw [setup_interval]
    rfl
  · rw [setup_maxDuration]
    rfl

/-- Witness for C10: reassigned defaults do not touch a `New(0,0)` counter. -/
theorem C10_new_captures_defaults_witness :
    (New initGlobals 0 0).interval = initGlobals.DefaultInterval ∧
    Duration ⟨1, 2⟩ (New initGlobals 0 0) 0 = Duration initGlobals (New initGlobals 0 0) 0 :=
  ⟨(C10_new_captures_defaults initGlobals ⟨1, 2⟩ 0 (by decide) (by decide)).1,
   (C10_new_captures_defaults initGlobals ⟨1, 2⟩ 0 (by decide) (by decide)).2.2.1⟩

/-! ### C5: growth stall -/

/-- Reachability invariant for repeated `Duration` calls from a counter built
with positive int64 `interval`: the interval is stable and the raw duration
`interval * 2^n` always fits in int64 (no assumption on `maxDuration`). -/
theorem C5_inv (g : Globals) (i m : Int) (hi : 0 < i) (hi63 : i < 2 ^ 63) (k : Nat) :
    (durStates g (NewWithoutJitter g m i) k).interval = i ∧
    i * 2 ^ (durStates g (NewWithoutJitter g m i) k).n < 2 ^ 63 := by
  induction k with
  | zero =>
    refine ⟨?_, ?_⟩
    · show (setup g ⟨m, i, false, 0, 0⟩).interval = i
      rw [setup_interval]
      exact if_neg (ne_of_gt hi)
    · show i * 2 ^ (setup g ⟨m, i, false, 0, 0⟩).n < 2 ^ 63
      rw [setup_n]
      simpa using hi63
  | succ k ih =>
    obtain ⟨hint, hfit⟩ := ih
    have hi' : 0 < (durStates g (NewWithoutJitter g m i) k).interval := by
      rw [hint]
      exact hi
    have hraw' : (durStates g (NewWithoutJitter g m i) k).interval *
        2 ^ (durStates g (NewWithoutJitter g m i) k).n < 2 ^ 63 := by
      rw [hint]
      exact hfit
    refine ⟨?_, ?_⟩
    · show ((Duration g (durStates g (NewWithoutJitter g m i) k) 0).2).interval = i
      rw [Duration_interval_eq, setup_interval, hint, if_neg (ne_of_gt hi)]
    · show i * 2 ^ ((Duration g (durStates g (NewWithoutJitter g m i) k) 0).2).n < 2 ^ 63
      rw [Duration_n_eq g _ 0 hi' hraw', hint]
      split_ifs with h
      · exact h
      · exact hfit

/-- C5: once doubling the raw duration would leave int64 at step `k` (the
stall condition), the exponent freezes on that and all later `Duration`
calls, and every later raw (pre-clamp) duration equals the frozen
`interval * 2^n`, which stays positive and below `2^63` — it never wraps to
a small or negative value. -/
theorem C5_growth_stall (g : Globals) (i m : Int) (k j : Nat)
    (hi : 0 < i) (hi63 : i < 2 ^ 63)
    (hstall : 2 ^ 63 ≤ i * 2 ^ ((durStates g (NewWithoutJitter g m i) k).n + 1))
    (hkj : k ≤ j) :
    (durStates g (NewWithoutJitter g m i) j).n =
      (durStates g (NewWithoutJitter g m i) k).n ∧
    rawDur (durStates g (NewWithoutJitter g m i) j) =
      i * 2 ^ (durStates g (NewWithoutJitter g m i) k).n ∧
    0 < rawDur (durStates g (NewWithoutJitter g m i) j) ∧
    rawDur (durStates g (NewWithoutJitter g m i) j) < 2 ^ 63 := by
  have hn : ∀ j, k ≤ j → (durStates g (NewWithoutJitter g m i) j).n =
      (durStates g (NewWithoutJitter g m i) k).n := by
    intro j hj
    induction j, hj using Nat.le_induction with
    | base => rfl
    | succ j hj ihj =>
      obtain ⟨hint, hfit⟩ := C5_inv g i m hi hi63 j
      have hi' : 0 < (durStates g (NewWithoutJitter g m i) j).interval := by
        rw [hint]
        exact hi
      have hraw' : (durStates g (NewWithoutJitter g m i) j).interval *
          2 ^ (durStates g (NewWithoutJitter g m i) j).n < 2 ^ 63 := by
        rw [hint]
        exact hfit
      show ((Duration g (durStates g (NewWithoutJitter g m i) j) 0).2).n = _
      rw [Duration_n_eq g _ 0 hi' hraw', hint, ihj, if_neg (not_lt.mpr hstall)]
  obtain ⟨hintj, hfitj⟩ := C5_inv g i m hi hi63 j
  have hr : rawDur (durStates g (NewWithoutJitter g m i) j) =
      i * 2 ^ (durStates g (NewWithoutJitter g m i) j).n := by
    unfold rawDur
    rw [hintj]
    exact raw_eq i _ hi hfitj
  refine ⟨hn j hkj, ?_, ?_, ?_⟩
  · rw [hr, hn j hkj]
  · rw [hr]
    exact mul_pos hi (by positivity)
  · rw [hr]
    exact hfitj

/-- Witness for C5 at `interval = 2^62`: the stall condition already holds at
step 0, and two calls later the exponent is still 0 and the raw duration is
still `2^62`, positive and in range. -/
theorem C5_growth_stall_witness :
    (durStates initGlobals (NewWithoutJitter initGlobals 5 (2 ^ 62)) 2).n = 0 ∧
    rawDur (durStates initGlobals (NewWithoutJitter initGlobals 5 (2 ^ 62)) 2) = 2 ^ 62 := by
  have h := C5_growth_stall initGlobals (2 ^ 62) 5 0 2 (by norm_num) (by norm_num)
    (by decide) (by norm_num)
  constructor
  · rw [h.1]
    decide
  · rw [h.2.1]
    decide

/-! ### C3: jitter bounds -/

theorem C3_aux (g : Globals) (i m : Int) (hi : 0 < i) (hm : 0 < m)
    (rs : List Int) :
    ∀ (b : Backoff) (k : Nat),
      b.interval = i → b.maxDuration = m → b.noJitter = false →
      b.n ≤ k → i * 2 ^ b.n < 2 ^ 63 →
      ∀ ds bf, runOps g b (rs.map Op.dur) = some (ds, bf) →
        ∀ idx, idx < ds.length →
          0 ≤ ds.getD idx 0 ∧ ds.getD idx 0 < min (i * 2 ^ (k + idx)) m := by
  induction rs with
  | nil =>
    intro b k hint hmax hnj hnk hfit ds bf hrun idx hidx
    simp only [List.map_nil, runOps, Option.some.injEq, Prod.mk.injEq] at hrun
    obtain ⟨h1, _⟩ := hrun
    subst h1
    simp at hidx
  | cons r rs ih =>
    intro b k hint hmax hnj hnk hfit ds bf hrun idx hidx
    have hib : 0 < b.interval := by rw [hint]; exact hi
    have hmb : b.maxDuration ≠ 0 := by rw [hmax]; exact ne_of_gt hm
    have hrawb : b.interval * 2 ^ b.n < 2 ^ 63 := by rw [hint]; exact hfit
    have ht1 : 0 < min (i * 2 ^ b.n) m := lt_min (mul_pos hi (by positivity)) hm
    have ht1b : 0 < min (b.interval * 2 ^ b.n) b.maxDuration := by
      rw [hint, hmax]
      exact ht1
    have hDur := Duration_run g b r hib hmb hrawb
    rw [if_neg (show ¬b.noJitter = true by simp [hnj]),
      int63n_pos r _ ht1b] at hDur
    rw [hint, hmax, hnj] at hDur
    have hstep : step g b (Op.dur r) =
        some (r % min (i * 2 ^ b.n) m,
          ⟨m, i, false, (b.tries + 1) % 2 ^ 64,
            if i * 2 ^ (b.n + 1) < 2 ^ 63 then b.n + 1 else b.n⟩) := by
      simp only [step]
      rw [hDur]
    rw [List.map_cons] at hrun
    simp only [runOps] at hrun
    simp only [hstep] at hrun
    rcases hrec : runOps g
        ⟨m, i, false, (b.tries + 1) % 2 ^ 64,
          if i * 2 ^ (b.n + 1) < 2 ^ 63 then b.n + 1 else b.n⟩
        (rs.map Op.dur) with _ | ⟨ds', b''⟩
    · rw [hrec] at hrun
      simp at hrun
    · rw [hrec] at hrun
      simp only [Option.some.injEq, Prod.mk.injEq] at hrun
      obtain ⟨hds, _⟩ := hrun
      subst hds
      cases idx with
      | zero =>
        simp only [List.getD_cons_zero, Nat.add_zero]
        constructor
        · exact Int.emod_nonneg r (ne_of_gt ht1)
        · have hlt : r % min (i * 2 ^ b.n) m < min (i * 2 ^ b.n) m :=
            Int.emod_lt_of_pos r ht1
          have hle : min (i * 2 ^ b.n) m ≤ min (i * 2 ^ k) m :=
            min_le_min
              (mul_le_mul_of_nonneg_left
                (pow_le_pow_right₀ (by norm_num) hnk) (le_of_lt hi))
              (le_refl m)
          exact lt_of_lt_of_le hlt hle
      | succ idx =>
        have hn1 : (if i * 2 ^ (b.n + 1) < 2 ^ 63 then b.n + 1 else b.n) ≤ k + 1 := by
          split_ifs <;> omega
        have hfit1 : i * 2 ^ (if i * 2 ^ (b.n + 1) < 2 ^ 63 then b.n + 1 else b.n) < 2 ^ 63 := by
          split_ifs with h
          · exact h
          · exact hfit
        have hlen : idx < ds'.length := by
          simp only [List.length_cons] at hidx
          omega
        have h := ih ⟨m, i, false, (b.tries + 1) % 2 ^ 64,
            if i * 2 ^ (b.n + 1) < 2 ^ 63 then b.n + 1 else b.n⟩ (k + 1)
          rfl rfl rfl hn1 hfit1 ds' b'' hrec idx hlen
        rw [List.getD_cons_succ]
        rw [show k + (idx + 1) = (k + 1) + idx by omega]
        exact h

/-- C3: with jitter enabled and positive int64 `interval` and positive
`maxDuration`, every duration output by the (zero-based) idx-th call of a
pure sequence of `Duration` calls lies in
`[0, min (interval * 2^idx) maxDuration)`, for every sequence of random
draws. -/
theorem C3_jitter_bounds (g : Globals) (i m : Int) (rs ds : List Int) (bf : Backoff)
    (hi : 0 < i) (hi63 : i < 2 ^ 63) (hm : 0 < m)
    (hrun : runOps g (New g m i) (rs.map Op.dur) = some (ds, bf))
    (idx : Nat) (hidx : idx < ds.length) :
    0 ≤ ds.getD idx 0 ∧ ds.getD idx 0 < min (i * 2 ^ idx) m := by
  have hNew : New g m i = ⟨m, i, false, 0, 0⟩ := by
    unfold New
    exact setup_of_ne g _ (ne_of_gt hi) (ne_of_gt hm)
  rw [hNew] at hrun
  have h := C3_aux g i m hi hm rs ⟨m, i, false, 0, 0⟩ 0 rfl rfl rfl (Nat.le_refl 0)
    (by simpa using hi63) ds bf hrun idx hidx
  simpa using h

/-- Witness for C3: one jittered call with `interval = 1`, `maxDuration = 5`
and draw 3 outputs 0, which is in `[0, min 1 5)`. -/
theorem C3_jitter_bounds_witness :
    0 ≤ ([0] : List Int).getD 0 0 ∧
      ([0] : List Int).getD 0 0 < min ((1 : Int) * 2 ^ 0) 5 :=
  C3_jitter_bounds initGlobals 1 5 [3] [0] ⟨5, 1, false, 1, 1⟩ (by norm_num) (by norm_num)
    (by norm_num) (by decide) 0 (by decide)

/-! ### Small-step lemmas for `runSt` -/

theorem step_dur_some (g : Globals) (b : Backoff) (r d : Int) (b₁ : Backoff)
    (h : Duration g b r = (some d, b₁)) : step g b (Op.dur r) = some (d, b₁) := by
  simp only [step, h]

theorem step_dur_none (g : Globals) (b : Backoff) (r : Int) (b₁ : Backoff)
    (h : Duration g b r = (none, b₁)) : step g b (Op.dur r) = none := by
  simp only [step, h]

theorem runSt_cons_some (g : Globals) (b : Backoff) (op : Op) (ops : List Op)
    (d : Int) (b₁ : Backoff) (h : step g b op = some (d, b₁)) :
    runSt g b (op :: ops) = runSt g b₁ ops := by
  simp only [runSt, runOps, h]
  rcases hr : runOps g b₁ ops with _ | ⟨ds, b''⟩ <;> rfl

theorem runSt_cons_none (g : Globals) (b : Backoff) (op : Op) (ops : List Op)
    (h : step g b op = none) : runSt g b (op :: ops) = none := by
  simp only [runSt, runOps, h]
  rfl

/-! ### C9: reachable-state invariants -/

theorem C9_aux (g : Globals) :
    ∀ (ops : List Op) (b : Backoff) (c : Nat),
      b.tries = c % 2 ^ 64 → b.n ≤ c →
      ∀ b', runSt g b ops = some b' →
        b'.tries = (List.foldl dursAcc c ops) % 2 ^ 64 ∧
        b'.n ≤ List.foldl dursAcc c ops := by
  intro ops
  induction ops with
  | nil =>
    intro b c h1 h2 b' hrun
    simp only [runSt, runOps, Option.map_some', Option.some.injEq] at hrun
    subst hrun
    exact ⟨h1, h2⟩
  | cons op ops ih =>
    intro b c h1 h2 b' hrun
    cases op with
    | dur r =>
      rcases hD : Duration g b r with ⟨od, b₁⟩
      have hb1 : (Duration g b r).2 = b₁ := by rw [hD]
      cases od with
      | none =>
        rw [runSt_cons_none g b _ ops (step_dur_none g b r b₁ hD)] at hrun
        simp at hrun
      | some d =>
        rw [runSt_cons_some g b _ ops d b₁ (step_dur_some g b r d b₁ hD)] at hrun
        have htr : b₁.tries = (c + 1) % 2 ^ 64 := by
          rw [← hb1, Duration_tries, h1, Nat.mod_add_mod]
        have hn : b₁.n ≤ c + 1 := by
          rcases Duration_n_cases g b r with h | ⟨h, _⟩ <;> rw [hb1] at h <;> omega
        have h := ih b₁ (c + 1) htr hn b' hrun
        simpa [List.foldl_cons, dursAcc] using h
    | reset =>
      rw [runSt_cons_some g b Op.reset ops 0 (Reset b) rfl] at hrun
      have h := ih (Reset b) 0 (by rfl) (by exact Nat.le_refl 0) b' hrun
      simpa [List.foldl_cons, dursAcc] using h
    | tries =>
      rw [runSt_cons_some g b Op.tries ops ((Tries b : Int)) b rfl] at hrun
      have h := ih b c h1 h2 b' hrun
      simpa [List.foldl_cons, dursAcc] using h

/-- C9 (amended): from a fresh counter (both counters zero), any reachable
state with fewer than `2^64` `Duration` calls since the last `Reset`
satisfies `tries >= n`; the exponent never decreases across a `Duration`
call (and `Tries` changes nothing); `Reset` sets both counters to zero. -/
theorem C9_invariants (g : Globals) (b0 : Backoff) (ops : List Op) (b' : Backoff)
    (b : Backoff) (r : Int)
    (h0t : b0.tries = 0) (h0n : b0.n = 0)
    (hrun : runSt g b0 ops = some b') (hcnt : dursSinceReset ops < 2 ^ 64) :
    b'.n ≤ b'.tries ∧
    b.n ≤ ((Duration g b r).2).n ∧
    (Reset b).tries = 0 ∧ (Reset b).n = 0 := by
  refine ⟨?_, Duration_n_ge g b r, rfl, rfl⟩
  obtain ⟨h1, h2⟩ := C9_aux g ops b0 0 (by simpa using h0t) (by omega) b' hrun
  rw [h1]
  have : List.foldl dursAcc 0 ops = dursSinceReset ops := rfl
  rw [this, Nat.mod_eq_of_lt hcnt]
  rw [this] at h2
  omega

/-- Witness for C9: after one jitterless call from `NewWithoutJitter 5 1`,
the reached state `(tries, n) = (1, 1)` satisfies `tries >= n`. -/
theorem C9_invariants_witness :
    (⟨5, 1, true, 1, 1⟩ : Backoff).n ≤ (⟨5, 1, true, 1, 1⟩ : Backoff).tries :=
  (C9_invariants initGlobals (NewWithoutJitter initGlobals 5 1) [Op.dur 0]
    ⟨5, 1, true, 1, 1⟩ zeroBackoff 0 (by decide) (by decide) (by decide) (by decide)).1

/-- A jitterless `Duration` call always produces a value (no panic). -/
theorem Duration_fst_noJitter (g : Globals) (b : Backoff) (r : Int)
    (h : b.noJitter = true) :
    (Duration g b r).1 =
      some (if rawDur (setup g b) > (setup g b).maxDuration
            then (setup g b).maxDuration else rawDur (setup g b)) := by
  simp only [Duration, rawDur]
  rw [setup_noJitter, h]
  simp

theorem durStates_shift (g : Globals) (b : Backoff) (k : Nat) :
    durStates g b (k + 1) = durStates g (durState g b) k := by
  induction k with
  | zero => rfl
  | succ k ih =>
    rw [show durStates g b (k + 1 + 1) = durState g (durStates g b (k + 1)) from rfl, ih]
    rfl

/-- A run of `k` jitterless `Duration` calls never panics and reaches the
`k`-fold iterated state. -/
theorem runSt_replicate_dur (g : Globals) (b : Backoff) (hnj : b.noJitter = true)
    (k : Nat) :
    runSt g b (List.replicate k (Op.dur 0)) = some (durStates g b k) := by
  induction k generalizing b with
  | zero => rfl
  | succ k ih =>
    rw [List.replicate_succ]
    have hpair : Duration g b 0 =
        (some (if rawDur (setup g b) > (setup g b).maxDuration
               then (setup g b).maxDuration else rawDur (setup g b)),
         (Duration g b 0).2) := by
      rw [← Duration_fst_noJitter g b 0 hnj]
    rw [runSt_cons_some g b (Op.dur 0) _ _ _ (step_dur_some g b 0 _ _ hpair)]
    rw [ih ((Duration g b 0).2) (by rw [Duration_noJitter_eq]; exact hnj)]
    exact congrArg some (durStates_shift g b k).symm

/-- Closed form of the state after `k` jitterless calls at `interval = 1`,
`maxDuration = 5`: `tries` wraps modulo `2^64` while the exponent stalls at
62. -/
theorem durStates_wrap (k : Nat) :
    durStates initGlobals (NewWithoutJitter initGlobals 5 1) k =
      ⟨5, 1, true, k % 2 ^ 64, min k 62⟩ := by
  induction k with
  | zero => decide
  | succ k ih =>
    have hfit : (1 : Int) * 2 ^ min k 62 < 2 ^ 63 := by
      rw [one_mul]
      calc (2 : Int) ^ min k 62 ≤ 2 ^ 62 :=
            pow_le_pow_right₀ (by norm_num) (Nat.min_le_right k 62)
        _ < 2 ^ 63 := by norm_num
    rw [show durStates initGlobals (NewWithoutJitter initGlobals 5 1) (k + 1)
          = durState initGlobals
              (durStates initGlobals (NewWithoutJitter initGlobals 5 1) k) from rfl, ih]
    unfold durState
    rw [Duration_run initGlobals ⟨5, 1, true, k % 2 ^ 64, min k 62⟩ 0
      (by norm_num) (by norm_num) hfit]
    by_cases hk : k ≤ 61
    · have hmin : min k 62 = k := Nat.min_eq_left (by omega)
      have hcond : (1 : Int) * 2 ^ (min k 62 + 1) < 2 ^ 63 := by
        rw [hmin, one_mul]
        calc (2 : Int) ^ (k + 1) ≤ 2 ^ 62 := pow_le_pow_right₀ (by norm_num) (by omega)
          _ < 2 ^ 63 := by norm_num
      rw [if_pos hcond, hmin, Nat.mod_add_mod,
        Nat.min_eq_left (show k + 1 ≤ 62 by omega)]
    · have hmin : min k 62 = 62 := Nat.min_eq_right (by omega)
      have hcond : ¬(1 : Int) * 2 ^ (min k 62 + 1) < 2 ^ 63 := by
        rw [hmin, one_mul]
        norm_num
      rw [if_neg hcond, hmin, Nat.mod_add_mod,
        Nat.min_eq_right (show 62 ≤ k + 1 by omega)]

/-- C9 counterexample: the state reached from `NewWithoutJitter 5 1` by
`2^64` `Duration` calls (and no `Reset`) has `tries = 0` (the uint64 counter
wrapped) but exponent `n = 62`, violating `tries >= n`. -/
theorem C9_invariants_counterexample :
    runSt initGlobals (NewWithoutJitter initGlobals 5 1)
        (List.replicate (2 ^ 64) (Op.dur 0)) = some ⟨5, 1, true, 0, 62⟩ ∧
    ¬((⟨5, 1, true, 0, 62⟩ : Backoff).n ≤ (⟨5, 1, true, 0, 62⟩ : Backoff).tries) := by
  constructor
  · rw [runSt_replicate_dur initGlobals (NewWithoutJitter initGlobals 5 1) (by decide)
      (2 ^ 64), durStates_wrap (2 ^ 64)]
    decide
  · decide

/-! ### C7: zero-value counter vs explicit construction -/

theorem setup_Reset_comm (g : Globals) (b : Backoff) :
    setup g (Reset b) = Reset (setup g b) := by
  obtain ⟨m, i, nj, tr, n⟩ := b
  simp only [setup, Reset]
  split_ifs <;> rfl

/-- Two counters whose set-up forms agree produce the same run: either both
panic, or they yield identical output traces and setup-congruent final
states. -/
theorem runOps_setup_congr (g : Globals) :
    ∀ (ops : List Op) (b1 b2 : Backoff), setup g b1 = setup g b2 →
      (runOps g b1 ops = none ∧ runOps g b2 ops = none) ∨
      ∃ ds c1 c2, runOps g b1 ops = some (ds, c1) ∧ runOps g b2 ops = some (ds, c2) ∧
        setup g c1 = setup g c2 := by
  intro ops
  induction ops with
  | nil =>
    intro b1 b2 h
    right
    exact ⟨[], b1, b2, rfl, rfl, h⟩
  | cons op ops ih =>
    intro b1 b2 h
    cases op with
    | dur r =>
      have hD : Duration g b1 r = Duration g b2 r := by
        unfold Duration
        rw [h]
      rcases hE : Duration g b1 r with ⟨od, b'⟩
      have hE2 : Duration g b2 r = (od, b') := hD.symm.trans hE
      cases od with
      | none =>
        left
        constructor
        · simp only [runOps, step_dur_none g b1 r b' hE]
        · simp only [runOps, step_dur_none g b2 r b' hE2]
      | some d =>
        rcases hrec : runOps g b' ops with _ | ⟨ds, c⟩
        · left
          constructor
          · simp only [runOps, step_dur_some g b1 r d b' hE, hrec]
          · simp only [runOps, step_dur_some g b2 r d b' hE2, hrec]
        · right
          refine ⟨d :: ds, c, c, ?_, ?_, rfl⟩
          · simp only [runOps, step_dur_some g b1 r d b' hE, hrec]
          · simp only [runOps, step_dur_some g b2 r d b' hE2, hrec]
    | reset =>
      have hR : setup g (Reset b1) = setup g (Reset b2) := by
        rw [setup_Reset_comm, setup_Reset_comm, h]
      rcases ih (Reset b1) (Reset b2) hR with ⟨h1, h2⟩ | ⟨ds, c1, c2, h1, h2, hc⟩
      · left
        constructor
        · simp only [runOps, step, h1]
        · simp only [runOps, step, h2]
      · right
        refine ⟨0 :: ds, c1, c2, ?_, ?_, hc⟩
        · simp only [runOps, step, h1]
        · simp only [runOps, step, h2]
    | tries =>
      have htr : Tries b1 = Tries b2 := by
        have t1 : Tries b1 = (setup g b1).tries := (setup_tries g b1).symm
        rw [t1, h, setup_tries]
        rfl
      rcases ih b1 b2 h with ⟨h1, h2⟩ | ⟨ds, c1, c2, h1, h2, hc⟩
      · left
        constructor
        · simp only [runOps, step, h1]
        · simp only [runOps, step, h2]
      · right
        refine ⟨(Tries b1 : Int) :: ds, c1, c2, ?_, ?_, hc⟩
        · simp only [runOps, step, h1]
        · simp only [runOps, step, h2]
          rw [htr]

/-- C7: a zero-value `Backoff` (used without construction) and a counter
built by `New` with the documented defaults (max 6 hours, interval 5
minutes) produce identical output traces for every operation sequence and
every sequence of random draws — and either both panic or neither does. -/
theorem C7_zero_value_equiv_new (ops : List Op) :
    (runOps initGlobals zeroBackoff ops).map Prod.fst =
      (runOps initGlobals (New initGlobals (6 * Hour) (5 * Minute)) ops).map Prod.fst := by
  have h : setup initGlobals zeroBackoff =
      setup initGlobals (New initGlobals (6 * Hour) (5 * Minute)) := by decide
  rcases runOps_setup_congr initGlobals ops zeroBackoff
      (New initGlobals (6 * Hour) (5 * Minute)) h with ⟨h1, h2⟩ | ⟨ds, c1, c2, h1, h2, _⟩
  · rw [h1, h2]
  · rw [h1, h2]
    rfl
